import Mathlib

/-!
Shallow embedding of the WACC / DCF valuation pipeline
(`pages/1_WACC_Calculator.py`, `pages/3_DCF_Valuation.py`).
Machine floats are modelled by exact rationals `ℚ`.
-/

namespace FinApp

/-- One row of the static credit-spread table (`credit_spreads` in
`1_WACC_Calculator.py`): numeric band bounds, rating label, spread in percent. -/
structure CreditSpreadEntry where
  greaterThan : ℚ
  lessThan : ℚ
  rating : String
  spread : ℚ
deriving DecidableEq

/-- The static `credit_spreads` lookup table, lines 49-65 of
`1_WACC_Calculator.py`. -/
def credit_spreads : List CreditSpreadEntry :=
  [ ⟨-100000, 0.199999, "D2/D", 19.00⟩,
    ⟨0.2, 0.649999, "C2/C", 15.50⟩,
    ⟨0.65, 0.799999, "Ca2/CC", 10.10⟩,
    ⟨0.8, 1.249999, "Caa/CCC", 7.28⟩,
    ⟨1.25, 1.499999, "B3/B-", 4.42⟩,
    ⟨1.5, 1.749999, "B2/B", 3.00⟩,
    ⟨1.75, 1.999999, "B1/B+", 2.61⟩,
    ⟨2.0, 2.2499999, "Ba2/BB", 1.83⟩,
    ⟨2.25, 2.49999, "Ba1/BB+", 1.55⟩,
    ⟨2.5, 2.999999, "Baa2/BBB", 1.20⟩,
    ⟨3.0, 4.249999, "A3/A-", 0.95⟩,
    ⟨4.25, 5.499999, "A2/A", 0.85⟩,
    ⟨5.5, 6.499999, "A1/A+", 0.77⟩,
    ⟨6.5, 8.499999, "Aa2/AA", 0.60⟩,
    ⟨8.5, 100000, "Aaa/AAA", 0.45⟩ ]

/-- Python's whitespace set for `str.strip()`, on codepoints:
space, tab, newline, carriage return, vertical tab, form feed. -/
def isSpaceCode (n : ℕ) : Bool := n = 32 || n = 9 || n = 10 || n = 13 || n = 11 || n = 12

/-- ASCII lowercasing of one codepoint, modelling `str.lower()` on the
ASCII rating labels. -/
def lowerCode (n : ℕ) : ℕ := if 65 ≤ n ∧ n ≤ 90 then n + 32 else n

/-- Python's `s.strip().lower()` normalisation applied to both sides of the
label comparison in `get_credit_spread`, modelled on the string's
codepoint sequence. -/
def pyNormalize (s : String) : List ℕ :=
  ((((s.data.map Char.toNat).dropWhile isSpaceCode).reverse.dropWhile
    isSpaceCode).reverse).map lowerCode

/-- `get_credit_spread` (lines 68-74 of `1_WACC_Calculator.py`): scan the table
in order; on the first label match return the spread divided by 100 and no
warning; if no label matches return `0.0` and set the warning flag
(`st.warning` side effect modelled as the boolean). -/
def get_credit_spread (rating : String) : List CreditSpreadEntry → ℚ × Bool
  | [] => (0, true)
  | e :: rest =>
      if pyNormalize e.rating = pyNormalize rating then (e.spread / 100, false)
      else get_credit_spread rating rest

/-- CAPM cost of equity, lines 139-141: `rf + beta * emrp`
(the same formula is applied at the point, lower and upper beta). -/
def cost_of_equity (rf beta emrp : ℚ) : ℚ := rf + beta * emrp

/-- Cost of debt, line 181: `rf + credit_spread`. -/
def cost_of_debt (rf spread : ℚ) : ℚ := rf + spread

/-- WACC estimate with its 95% confidence bounds. -/
structure WACCEstimate where
  point : ℚ
  lower : ℚ
  upper : ℚ
deriving DecidableEq

/-- The WACC computation of `1_WACC_Calculator.py`: capital-structure weights
(lines 94-95), CAPM cost of equity at the three beta bounds (lines 139-141),
cost of debt from the credit-spread lookup (lines 180-181), and the three
WACC values (lines 194-196). -/
def computeWACC (marketCap totalDebt rf emrp taxRate : ℚ) (rating : String)
    (beta betaLower betaUpper : ℚ) : WACCEstimate :=
  let w_E := marketCap / (marketCap + totalDebt)
  let w_D := totalDebt / (marketCap + totalDebt)
  let kD := cost_of_debt rf (get_credit_spread rating credit_spreads).1
  { point := w_E * cost_of_equity rf beta emrp + w_D * kD * (1 - taxRate),
    lower := w_E * cost_of_equity rf betaLower emrp + w_D * kD * (1 - taxRate),
    upper := w_E * cost_of_equity rf betaUpper emrp + w_D * kD * (1 - taxRate) }

/-! ## Cash flow projector (`pages/3_DCF_Valuation.py`, lines 167-181) -/

/-- One row of the `projections` dataframe: 1-based year index and the four
projected financial figures (lines 173-176, 180). -/
structure ProjectionRow where
  year : ℕ
  revenue : ℚ
  ebit : ℚ
  nopat : ℚ
  fcf : ℚ
deriving DecidableEq

/-- Row-by-row evaluation of the projections dataframe.  `prev` is the
previous revenue (the running `cumprod` of line 173 times the baseline) and
`year` the 1-based year of the next row; each row applies lines 173-176:
revenue times EBIT margin, NOPAT after tax, FCF after reinvestment. -/
def projectFrom (taxRate : ℚ) : ℚ → ℕ → List ℚ → List ℚ → List ℚ → List ProjectionRow
  | _, _, [], _, _ => []
  | _, _, _ :: _, [], _ => []
  | _, _, _ :: _, _ :: _, [] => []
  | prev, year, g :: gs, m :: ms, rr :: rs =>
      let rev := prev * (1 + g)
      let ebit := rev * m
      let nopat := ebit * (1 - taxRate)
      let fcf := nopat * (1 - rr)
      ⟨year, rev, ebit, nopat, fcf⟩ :: projectFrom taxRate rev (year + 1) gs ms rs

/-- The `projections` dataframe of `3_DCF_Valuation.py` (lines 167-181):
baseline LTM revenue expanded against the growth / EBIT-margin /
reinvestment-rate patterns, with `Year` starting at 1. -/
def projections (ltmRevenue taxRate : ℚ)
    (growthPattern ebitMargin reinvRatePattern : List ℚ) : List ProjectionRow :=
  projectFrom taxRate ltmRevenue 1 growthPattern ebitMargin reinvRatePattern

/-- The closed-form revenue sequence of line 173,
`ltm_revenue * (1 + growth).cumprod()`: `revenueAt b g 0 = b` (the baseline,
"revenue(0)") and `revenueAt b g t = revenueAt b g (t-1) * (1 + g[t])`. -/
def revenueAt (baseline : ℚ) (growthPattern : List ℚ) : ℕ → ℚ
  | 0 => baseline
  | t + 1 => revenueAt baseline growthPattern t * (1 + growthPattern.getD t 0)

/-! ## Valuation engine (`pages/3_DCF_Valuation.py`, lines 250-282) -/

/-- Present value of the projected FCF column (lines 259-260):
each `FCF` entry is discounted by `(1 + wacc) ** Year` with `Year` the
1-based row index, then summed. -/
def pv_fcf (fcf : List ℚ) (wacc : ℚ) : ℚ :=
  (fcf.enum.map (fun p => p.2 / (1 + wacc) ^ (p.1 + 1))).sum

/-- One `ValuationScenario` row of the `results` list (lines 273-282). -/
structure ValuationScenario where
  wacc : ℚ
  pvFCF : ℚ
  terminalValue : ℚ
  pvTerminal : ℚ
  firmValue : ℚ
  equityValue : ℚ
  sharePrice : ℚ
deriving DecidableEq

/-- The per-scenario valuation of lines 258-271: PV of FCF, Gordon-growth
terminal value from the final FCF (`iloc[-1]`), its PV over the full horizon
(the projection's length), firm value, equity bridge and per-share price. -/
def valuationScenario (fcf : List ℚ) (ssGrowth wacc totalDebt totalCash
    sharesOutstanding : ℚ) : ValuationScenario :=
  let pv := pv_fcf fcf wacc
  let tv := fcf.getLastD 0 * (1 + ssGrowth) / (wacc - ssGrowth)
  let pvTv := tv / (1 + wacc) ^ fcf.length
  let fv := pv + pvTv
  let ev := fv - totalDebt + totalCash
  ⟨wacc, pv, tv, pvTv, fv, ev, ev / sharesOutstanding⟩

/-- Error taxonomy of the pipeline (spec §7): fatal conditions that abort a
run (`st.error` followed by `st.stop()` in the source). -/
inductive RunError where
  | mathDomainError (wacc ssGrowth : ℚ)
  | dataUnavailable (field : String)
deriving DecidableEq

/-- The scenario loop of lines 252-282: scenarios are visited in order;
each is first checked against the Gordon-growth precondition
`wacc <= ss_growth` (lines 254-256, `st.stop()` aborting the whole run),
then valued and appended.  The `Except` result models that an abort yields
no partial scenario list. -/
def wacc_scenarios_run (fcf : List ℚ) (ssGrowth totalDebt totalCash
    sharesOutstanding : ℚ) :
    List (String × ℚ) → Except RunError (List (String × ValuationScenario))
  | [] => .ok []
  | (name, wacc) :: rest =>
      if wacc ≤ ssGrowth then .error (.mathDomainError wacc ssGrowth)
      else
        match wacc_scenarios_run fcf ssGrowth totalDebt totalCash
            sharesOutstanding rest with
        | .error e => .error e
        | .ok tail =>
            .ok ((name, valuationScenario fcf ssGrowth wacc totalDebt totalCash
              sharesOutstanding) :: tail)

/-- The external figures the DCF page fetches for a run
(lines 112-131 of `3_DCF_Valuation.py`). -/
structure FetchedData where
  sharesOutstanding : ℚ
  totalDebt : ℚ
  totalCash : ℚ
  quarterlyRevenue : List ℚ
deriving DecidableEq

/-- The data guards of lines 112-131: shares outstanding equal to zero is
fatal, an empty quarterly statement is fatal; total debt and total cash are
read with a default of 0 and not checked.  On success the run keeps the last
four quarters and sums their revenue into the LTM baseline. -/
def fetchGuard (d : FetchedData) : Except RunError (ℚ × ℚ × ℚ × ℚ) :=
  if d.sharesOutstanding = 0 then .error (.dataUnavailable "sharesOutstanding")
  else if d.quarterlyRevenue = [] then .error (.dataUnavailable "quarterlyData")
  else .ok (d.sharesOutstanding, d.totalDebt, d.totalCash,
    ((d.quarterlyRevenue.drop (d.quarterlyRevenue.length - 4)).sum))

/-- The market-cap guard of the WACC page (lines 85-95): zero market cap is
fatal; otherwise the capital-structure weights are formed. -/
def waccFetchGuard (marketCap totalDebt : ℚ) : Except RunError (ℚ × ℚ) :=
  if marketCap = 0 then .error (.dataUnavailable "marketCap")
  else .ok (marketCap / (marketCap + totalDebt), totalDebt / (marketCap + totalDebt))

/-- The current-price fetch of the share-price comparison
(lines 312-317 of `3_DCF_Valuation.py`): the closing-price history is read
inside a try/except and `current_price` is its last entry if the series is
nonempty, else `None` (displayed as "N/A" in section 4).  The result is an
`Option`, never a `RunError`: an empty price series does not abort the run. -/
def currentPriceFetch (priceHistory : List ℚ) : Option ℚ :=
  priceHistory.getLast?

/-! ## Beta regression engine (`pages/1_WACC_Calculator.py`, lines 128-136)

The page fits `sm.OLS(stock_returns, add_constant(index_returns))`; the
fitted slope, intercept and R² follow the standard simple-OLS closed form,
embedded here over exact rationals. -/

/-- Arithmetic mean of a return series. -/
def seriesMean (xs : List ℚ) : ℚ := xs.sum / xs.length

/-- Centered sum of squares of the regressor, `Σ (x - mean x)²`. -/
def sxx (xs : List ℚ) : ℚ := (xs.map (fun x => (x - seriesMean xs) ^ 2)).sum

/-- Centered cross products, `Σ (x - mean x)(y - mean y)` over aligned pairs. -/
def sxy (xs ys : List ℚ) : ℚ :=
  ((xs.zip ys).map (fun p => (p.1 - seriesMean xs) * (p.2 - seriesMean ys))).sum

/-- OLS slope (the fitted beta): `sxy / sxx`. -/
def olsSlope (xs ys : List ℚ) : ℚ := sxy xs ys / sxx xs

/-- OLS intercept (the fitted constant term). -/
def olsIntercept (xs ys : List ℚ) : ℚ :=
  seriesMean ys - olsSlope xs ys * seriesMean xs

/-- Residual sum of squares of the fitted line. -/
def ssRes (xs ys : List ℚ) : ℚ :=
  ((xs.zip ys).map
    (fun p => (p.2 - (olsIntercept xs ys + olsSlope xs ys * p.1)) ^ 2)).sum

/-- Total (centered) sum of squares of the response. -/
def ssTot (ys : List ℚ) : ℚ := (ys.map (fun y => (y - seriesMean ys) ^ 2)).sum

/-- Coefficient of determination, `R² = 1 - SS_res / SS_tot`. -/
def olsRSquared (xs ys : List ℚ) : ℚ := 1 - ssRes xs ys / ssTot ys

/-! ## Credit-spread lookup lemmas -/

/-- The sequential scan of `get_credit_spread` agrees with a first-match
`List.find?` over the normalised labels. -/
theorem get_credit_spread_eq_find (rating : String) (l : List CreditSpreadEntry) :
    get_credit_spread rating l =
      match l.find? (fun e => pyNormalize e.rating = pyNormalize rating) with
      | some e => (e.spread / 100, false)
      | none => (0, true) := by
  induction l with
  | nil => rfl
  | cons e rest ih =>
      by_cases h : pyNormalize e.rating = pyNormalize rating
      · simp [get_credit_spread, List.find?_cons, h]
      · simp [get_credit_spread, List.find?_cons, h, ih]

/-- Every spread percentage in the static table lies between 0.45 and 19. -/
theorem credit_spreads_range :
    ∀ e ∈ credit_spreads, (45 / 100 : ℚ) ≤ e.spread ∧ e.spread ≤ 19 := by
  intro e he
  fin_cases he <;> norm_num [credit_spreads]

/-- C6: for every rating label matching a table entry after
whitespace-trimming and case-folding both sides, the lookup returns that
entry's tabulated spread divided by 100 with no warning; for every
non-matching label it returns exactly 0 with the non-fatal warning flag set
(the run continues with that value); concretely, the padded mixed-case label
of the AAA band returns 0.45/100, and an unknown label returns 0 with the
warning. -/
theorem credit_spread_lookup_spec :
    (∀ rating : String,
      get_credit_spread rating credit_spreads =
        match credit_spreads.find?
            (fun e => pyNormalize e.rating = pyNormalize rating) with
        | some e => (e.spread / 100, false)
        | none => (0, true)) ∧
    get_credit_spread "  aAa/AAA  " credit_spreads = (45 / 10000, false) ∧
    get_credit_spread "Unrated" credit_spreads = (0, true) := by
  refine ⟨fun rating => get_credit_spread_eq_find rating credit_spreads, ?_, ?_⟩
  · norm_num +decide [get_credit_spread, credit_spreads]
  · norm_num +decide [get_credit_spread, credit_spreads]

/-- C10: for every rating label, the looked-up spread lies in [0, 0.19]
(each tabulated spread percentage is between 0.45 and 19.00 and is divided
by 100; the fallback is 0), so the derived cost of debt is never below the
risk-free rate. -/
theorem credit_spread_always_in_range :
    ∀ (rating : String) (rf : ℚ),
      0 ≤ (get_credit_spread rating credit_spreads).1 ∧
      (get_credit_spread rating credit_spreads).1 ≤ 19 / 100 ∧
      rf ≤ cost_of_debt rf (get_credit_spread rating credit_spreads).1 := by
  intro rating rf
  rw [get_credit_spread_eq_find]
  rcases hfind : credit_spreads.find?
      (fun e => pyNormalize e.rating = pyNormalize rating) with _ | e
  · simp only [hfind, cost_of_debt]
    norm_num
  · have he : e ∈ credit_spreads := List.mem_of_find?_eq_some hfind
    have hr := credit_spreads_range e he
    simp only [hfind, cost_of_debt]
    refine ⟨by linarith [hr.1], by linarith [hr.2], by linarith [hr.1]⟩

/-- C4: the cost-of-capital calculator returns, for each of
point/lower/upper, `WACC = w_E * costOfEquity(bound) + w_D * costOfDebt *
(1 - taxRate)` with `costOfEquity(bound) = rf + beta(bound) * emrp`, and the
debt-side term uses the same point cost of debt for all three bounds: the
pairwise differences of the three WACC values are pure equity-leg terms. -/
theorem wacc_components (marketCap totalDebt rf emrp taxRate
    beta betaLower betaUpper : ℚ) (rating : String) :
    (computeWACC marketCap totalDebt rf emrp taxRate rating
        beta betaLower betaUpper).point
      = marketCap / (marketCap + totalDebt) * cost_of_equity rf beta emrp
        + totalDebt / (marketCap + totalDebt)
          * cost_of_debt rf (get_credit_spread rating credit_spreads).1
          * (1 - taxRate) ∧
    (computeWACC marketCap totalDebt rf emrp taxRate rating
        beta betaLower betaUpper).lower
      = marketCap / (marketCap + totalDebt) * cost_of_equity rf betaLower emrp
        + totalDebt / (marketCap + totalDebt)
          * cost_of_debt rf (get_credit_spread rating credit_spreads).1
          * (1 - taxRate) ∧
    (computeWACC marketCap totalDebt rf emrp taxRate rating
        beta betaLower betaUpper).upper
      = marketCap / (marketCap + totalDebt) * cost_of_equity rf betaUpper emrp
        + totalDebt / (marketCap + totalDebt)
          * cost_of_debt rf (get_credit_spread rating credit_spreads).1
          * (1 - taxRate) ∧
    (computeWACC marketCap totalDebt rf emrp taxRate rating
        beta betaLower betaUpper).point
      - (computeWACC marketCap totalDebt rf emrp taxRate rating
          beta betaLower betaUpper).lower
      = marketCap / (marketCap + totalDebt) * (beta - betaLower) * emrp ∧
    (computeWACC marketCap totalDebt rf emrp taxRate rating
        beta betaLower betaUpper).upper
      - (computeWACC marketCap totalDebt rf emrp taxRate rating
          beta betaLower betaUpper).point
      = marketCap / (marketCap + totalDebt) * (betaUpper - beta) * emrp := by
  refine ⟨rfl, rfl, rfl, ?_, ?_⟩ <;>
    simp only [computeWACC, cost_of_equity] <;> ring

/-- C5: with ordered beta bounds, a nonnegative market risk premium and
capital-structure weights derived from nonnegative equity and debt with
positive total, the WACC estimate's bounds are ordered:
lower ≤ point ≤ upper. -/
theorem wacc_bounds_ordered (marketCap totalDebt rf emrp taxRate
    beta betaLower betaUpper : ℚ) (rating : String)
    (h1 : betaLower ≤ beta) (h2 : beta ≤ betaUpper) (hemrp : 0 ≤ emrp)
    (hmc : 0 ≤ marketCap) (htd : 0 ≤ totalDebt)
    (hpos : 0 < marketCap + totalDebt) :
    (computeWACC marketCap totalDebt rf emrp taxRate rating
        beta betaLower betaUpper).lower
      ≤ (computeWACC marketCap totalDebt rf emrp taxRate rating
          beta betaLower betaUpper).point ∧
    (computeWACC marketCap totalDebt rf emrp taxRate rating
        beta betaLower betaUpper).point
      ≤ (computeWACC marketCap totalDebt rf emrp taxRate rating
          beta betaLower betaUpper).upper := by
  have hwE : 0 ≤ marketCap / (marketCap + totalDebt) := div_nonneg hmc hpos.le
  simp only [computeWACC, cost_of_equity]
  constructor
  · have h3 : betaLower * emrp ≤ beta * emrp :=
      mul_le_mul_of_nonneg_right h1 hemrp
    nlinarith [mul_le_mul_of_nonneg_left h3 hwE]
  · have h3 : beta * emrp ≤ betaUpper * emrp :=
      mul_le_mul_of_nonneg_right h2 hemrp
    nlinarith [mul_le_mul_of_nonneg_left h3 hwE]

/-- Witness for C5 at concrete inputs: equity 100, debt 50, rf 4.5%,
EMRP 5%, tax 25%, betas 0.8 ≤ 1 ≤ 1.2. -/
theorem wacc_bounds_ordered_witness :
    (computeWACC 100 50 (45/1000) (5/100) (25/100) "A2/A" 1 (4/5) (6/5)).lower
      ≤ (computeWACC 100 50 (45/1000) (5/100) (25/100) "A2/A" 1 (4/5) (6/5)).point ∧
    (computeWACC 100 50 (45/1000) (5/100) (25/100) "A2/A" 1 (4/5) (6/5)).point
      ≤ (computeWACC 100 50 (45/1000) (5/100) (25/100) "A2/A" 1 (4/5) (6/5)).upper :=
  wacc_bounds_ordered 100 50 (45/1000) (5/100) (25/100) 1 (4/5) (6/5) "A2/A"
    (by norm_num) (by norm_num) (by norm_num) (by norm_num) (by norm_num)
    (by norm_num)

/-! ## Cash-flow projector lemmas -/

/-- Shifting the revenue recursion past the first projection year. -/
theorem revenueAt_cons (b gHead : ℚ) (gs : List ℚ) :
    ∀ t, revenueAt b (gHead :: gs) (t + 1) = revenueAt (b * (1 + gHead)) gs t := by
  intro t
  induction t with
  | zero => simp [revenueAt]
  | succ t ih =>
      have h1 : revenueAt b (gHead :: gs) (t + 1 + 1)
          = revenueAt b (gHead :: gs) (t + 1) * (1 + (gHead :: gs).getD (t + 1) 0) := rfl
      have h2 : revenueAt (b * (1 + gHead)) gs (t + 1)
          = revenueAt (b * (1 + gHead)) gs t * (1 + gs.getD t 0) := rfl
      rw [h1, h2, ih, List.getD_cons_succ]

/-- The projector emits one row per growth entry when the three assumption
sequences have equal length. -/
theorem projectFrom_length (taxRate : ℚ) :
    ∀ (gs ms rs : List ℚ) (prev : ℚ) (year : ℕ),
      ms.length = gs.length → rs.length = gs.length →
      (projectFrom taxRate prev year gs ms rs).length = gs.length := by
  intro gs
  induction gs with
  | nil => intro ms rs prev year _ _; simp [projectFrom]
  | cons g gs ih =>
      intro ms rs prev year hm hr
      rcases ms with _ | ⟨m, ms⟩
      · simp at hm
      rcases rs with _ | ⟨r, rs⟩
      · simp at hr
      simp only [projectFrom, List.length_cons]
      rw [ih ms rs _ _ (by simpa using hm) (by simpa using hr)]

/-- Closed form for the `i`-th projected row: the year is offset by `i` and
the financial columns are the elementwise products of lines 173-176 applied
to the cumulative revenue. -/
theorem projectFrom_getD (taxRate : ℚ) :
    ∀ (gs ms rs : List ℚ) (prev : ℚ) (year i : ℕ),
      i < gs.length → ms.length = gs.length → rs.length = gs.length →
      (projectFrom taxRate prev year gs ms rs).getD i ⟨0, 0, 0, 0, 0⟩ =
        ⟨year + i,
         revenueAt prev gs (i + 1),
         revenueAt prev gs (i + 1) * ms.getD i 0,
         revenueAt prev gs (i + 1) * ms.getD i 0 * (1 - taxRate),
         revenueAt prev gs (i + 1) * ms.getD i 0 * (1 - taxRate)
           * (1 - rs.getD i 0)⟩ := by
  intro gs
  induction gs with
  | nil => intro ms rs prev year i hi; simp at hi
  | cons g gs ih =>
      intro ms rs prev year i hi hm hr
      rcases ms with _ | ⟨m, ms⟩
      · simp at hm
      rcases rs with _ | ⟨r, rs⟩
      · simp at hr
      cases i with
      | zero => simp [projectFrom, revenueAt]
      | succ j =>
          have hm' : ms.length = gs.length := by simpa using hm
          have hr' : rs.length = gs.length := by simpa using hr
          have hj : j < gs.length := by simpa using hi
          simp only [projectFrom, List.getD_cons_succ]
          rw [ih ms rs (prev * (1 + g)) (year + 1) j hj hm' hr']
          rw [show year + 1 + j = year + (j + 1) by omega]
          rw [show j + 1 + 1 = (j + 1) + 1 by omega, revenueAt_cons]

/-- C2: with three assumption sequences of length `N`, the projector emits
exactly `N` rows, and row `t` (1-indexed `year`, 0-indexed access `i = t-1`)
satisfies revenue(t) = revenue(t-1) * (1 + growth[t]) starting from the
baseline, EBIT(t) = revenue(t) * ebitMargin[t],
NOPAT(t) = EBIT(t) * (1 - taxRate), FCF(t) = NOPAT(t) * (1 - reinvRate[t]). -/
theorem projections_rows_spec (b taxRate : ℚ) (g m rr : List ℚ) (N : ℕ)
    (hg : g.length = N) (hm : m.length = N) (hr : rr.length = N) :
    (projections b taxRate g m rr).length = N ∧
    ∀ i, i < N →
      ((projections b taxRate g m rr).getD i ⟨0, 0, 0, 0, 0⟩).year = i + 1 ∧
      ((projections b taxRate g m rr).getD i ⟨0, 0, 0, 0, 0⟩).revenue
        = (if i = 0 then b
            else ((projections b taxRate g m rr).getD (i - 1)
              ⟨0, 0, 0, 0, 0⟩).revenue) * (1 + g.getD i 0) ∧
      ((projections b taxRate g m rr).getD i ⟨0, 0, 0, 0, 0⟩).ebit
        = ((projections b taxRate g m rr).getD i ⟨0, 0, 0, 0, 0⟩).revenue
          * m.getD i 0 ∧
      ((projections b taxRate g m rr).getD i ⟨0, 0, 0, 0, 0⟩).nopat
        = ((projections b taxRate g m rr).getD i ⟨0, 0, 0, 0, 0⟩).ebit
          * (1 - taxRate) ∧
      ((projections b taxRate g m rr).getD i ⟨0, 0, 0, 0, 0⟩).fcf
        = ((projections b taxRate g m rr).getD i ⟨0, 0, 0, 0, 0⟩).nopat
          * (1 - rr.getD i 0) := by
  have hm' : m.length = g.length := by omega
  have hr' : rr.length = g.length := by omega
  constructor
  · rw [projections, projectFrom_length taxRate g m rr b 1 hm' hr', hg]
  · intro i hi
    have hi' : i < g.length := by omega
    have hrow := projectFrom_getD taxRate g m rr b 1 i hi' hm' hr'
    rw [projections] at *
    rw [hrow]
    refine ⟨Nat.add_comm 1 i, ?_, rfl, rfl, rfl⟩
    by_cases h0 : i = 0
    · subst h0
      simp [revenueAt]
    · rw [if_neg h0]
      have hi1 : i - 1 < g.length := by omega
      rw [projectFrom_getD taxRate g m rr b 1 (i - 1) hi1 hm' hr']
      have hsub : i - 1 + 1 = i := by omega
      rw [hsub]
      show revenueAt b g (i + 1) = revenueAt b g i * (1 + g.getD i 0)
      rfl

/-- Witness for C2 at the spec's concrete scenario: baseline 100, growth
[0.10], EBIT margin [0.50], reinvestment [0.20], tax 0.20, horizon 1 gives
one row with revenue 110, EBIT 55, NOPAT 44, FCF 35.2. -/
theorem projections_rows_spec_witness :
    (projections 100 (20/100) [10/100] [50/100] [20/100]).length = 1 ∧
    projections 100 (20/100) [10/100] [50/100] [20/100]
      = [⟨1, 110, 55, 44, 352/10⟩] :=
  ⟨(projections_rows_spec 100 (20/100) [10/100] [50/100] [20/100] 1
      rfl rfl rfl).1,
   by norm_num [projections, projectFrom]⟩

/-! ## Valuation-engine lemmas -/

/-- The discount-and-sum of `pv_fcf`, started at index offset `n`, equals the
closed summation over the list positions. -/
theorem pv_fcf_sum (r : ℚ) :
    ∀ (l : List ℚ) (n : ℕ),
      ((l.enumFrom n).map (fun p => p.2 / (1 + r) ^ (p.1 + 1))).sum
        = ∑ t ∈ Finset.range l.length, l.getD t 0 / (1 + r) ^ (n + t + 1) := by
  intro l
  induction l with
  | nil => intro n; simp
  | cons x xs ih =>
      intro n
      rw [List.enumFrom_cons]
      simp only [List.map_cons, List.sum_cons]
      rw [ih (n + 1), List.length_cons, Finset.sum_range_succ']
      simp only [List.getD_cons_succ, List.getD_cons_zero]
      rw [add_comm]
      congr 1
      refine Finset.sum_congr rfl (fun t _ => ?_)
      rw [show n + (t + 1) + 1 = n + 1 + t + 1 by omega]

/-- For a nonempty list, the last element (`iloc[-1]`) is the element at
position `length - 1`, whatever the defaults. -/
theorem getLastD_eq_getD :
    ∀ (l : List ℚ) (d e : ℚ), l ≠ [] → l.getLastD d = l.getD (l.length - 1) e := by
  intro l
  induction l with
  | nil => intro d e h; exact absurd rfl h
  | cons x xs ih =>
      intro d e h
      rcases xs with _ | ⟨y, ys⟩
      · rfl
      · have h1 : (x :: y :: ys).getLastD d = (y :: ys).getLastD x := rfl
        rw [h1, ih x e (by simp)]
        simp [List.getD_cons_succ]

/-- C1: for a projection with `N` rows of free cash flow, growth `g`,
discount rate `r > g` and positive share count, the valuation engine returns
PV of FCF = Σ over t=1..N of FCF(t)/(1+r)^t, terminal value =
FCF(N)(1+g)/(r-g), PV of terminal value = terminal value/(1+r)^N, firm value
= PV of FCF + PV of terminal value, equity value = firm value - debt + cash,
and share price = equity value / shares. -/
theorem valuation_engine_spec (fcf : List ℚ) (N : ℕ) (g r debt cash shares : ℚ)
    (hN : fcf.length = N) (hN1 : 1 ≤ N) (hg : g < r) (hs : 0 < shares) :
    (valuationScenario fcf g r debt cash shares).pvFCF
        = ∑ t ∈ Finset.range N, fcf.getD t 0 / (1 + r) ^ (t + 1) ∧
    (valuationScenario fcf g r debt cash shares).terminalValue
        = fcf.getD (N - 1) 0 * (1 + g) / (r - g) ∧
    (valuationScenario fcf g r debt cash shares).pvTerminal
        = (valuationScenario fcf g r debt cash shares).terminalValue
          / (1 + r) ^ N ∧
    (valuationScenario fcf g r debt cash shares).firmValue
        = (valuationScenario fcf g r debt cash shares).pvFCF
          + (valuationScenario fcf g r debt cash shares).pvTerminal ∧
    (valuationScenario fcf g r debt cash shares).equityValue
        = (valuationScenario fcf g r debt cash shares).firmValue - debt + cash ∧
    (valuationScenario fcf g r debt cash shares).sharePrice
        = (valuationScenario fcf g r debt cash shares).equityValue / shares := by
  subst hN
  refine ⟨?_, ?_, rfl, rfl, rfl, rfl⟩
  · show pv_fcf fcf r = _
    rw [pv_fcf, show fcf.enum = fcf.enumFrom 0 from rfl, pv_fcf_sum]
    exact Finset.sum_congr rfl (fun t _ => by rw [Nat.zero_add])
  · show fcf.getLastD 0 * (1 + g) / (r - g) = _
    have hne : fcf ≠ [] := by
      intro hnil
      rw [hnil] at hN1
      simp at hN1
    rw [getLastD_eq_getD fcf 0 0 hne]

/-- Witness for C1 at the spec's end-to-end scenario: horizon 1,
FCF(1)=35.2, g=3%, r=9%, no debt or cash, 10 shares; the engine's PV of FCF
matches the summation and the share price is 176/3 ≈ 58.67 (within 0.01
of 58.67). -/
theorem valuation_engine_spec_witness :
    (valuationScenario [352/10] (3/100) (9/100) 0 0 10).pvFCF
        = ∑ t ∈ Finset.range 1,
            ([(352 : ℚ)/10].getD t 0) / (1 + 9/100) ^ (t + 1) ∧
    (valuationScenario [352/10] (3/100) (9/100) 0 0 10).sharePrice = 176/3 ∧
    |(valuationScenario [352/10] (3/100) (9/100) 0 0 10).sharePrice
        - 5867/100| < 1/100 := by
  refine ⟨(valuation_engine_spec [352/10] 1 (3/100) (9/100) 0 0 10 rfl
      (by norm_num) (by norm_num) (by norm_num)).1, ?_, ?_⟩ <;>
    norm_num [valuationScenario, pv_fcf, List.enum, List.enumFrom,
      List.getLastD, abs_sub_lt_iff, abs_lt]

/-- C3: if any scenario's discount rate is at or below the steady-state
growth rate, the scenario loop aborts the entire run with the
MathDomainError condition — the result is an error carrying an offending
rate, never a partial scenario list. -/
theorem scenario_guard_aborts (fcf : List ℚ) (g debt cash shares : ℚ)
    (scenarios : List (String × ℚ)) (h : ∃ p ∈ scenarios, p.2 ≤ g) :
    ∃ w, wacc_scenarios_run fcf g debt cash shares scenarios
        = .error (.mathDomainError w g) ∧ w ≤ g := by
  induction scenarios with
  | nil => simp at h
  | cons p rest ih =>
      obtain ⟨q, hq, hle⟩ := h
      rcases p with ⟨name, w⟩
      by_cases hw : w ≤ g
      · exact ⟨w, by simp [wacc_scenarios_run, hw], hw⟩
      · have hrest : ∃ p ∈ rest, p.2 ≤ g := by
          rcases List.mem_cons.mp hq with hq1 | hmem
          · rw [hq1] at hle
            exact absurd hle hw
          · exact ⟨q, hmem, hle⟩
        obtain ⟨w2, hrun, hle2⟩ := ih hrest
        refine ⟨w2, ?_, hle2⟩
        simp [wacc_scenarios_run, hw, hrun]

/-- Witness for C3: with steady-state growth 3% and a single 1% scenario,
the run returns no scenario list. -/
theorem scenario_guard_aborts_witness :
    (wacc_scenarios_run [352/10] (3/100) 0 0 10
        [("Mid Estimate", 1/100)]).isOk = false := by
  obtain ⟨w, hrun, hle⟩ := scenario_guard_aborts [352/10] (3/100) 0 0 10
    [("Mid Estimate", 1/100)] ⟨("Mid Estimate", 1/100), by norm_num, by norm_num⟩
  rw [hrun]
  rfl

/-- Counterexample to C8 as stated: a fetch with zero total debt and zero
total cash succeeds (the DCF page reads them with a default of 0 and never
checks them), one with negative shares outstanding also succeeds (the guard
tests equality with zero, not `≤ 0`), and an empty price series is not a
fatal condition either: the current-price fetch returns `None` ("N/A") and
the run continues rather than raising DataUnavailable. -/
theorem fetch_guard_counterexample :
    fetchGuard ⟨10, 0, 0, [100]⟩ = .ok (10, 0, 0, 100) ∧
    fetchGuard ⟨-5, 3, 2, [100]⟩ = .ok (-5, 3, 2, 100) ∧
    currentPriceFetch [] = none := by
  refine ⟨?_, ?_, rfl⟩ <;> norm_num [fetchGuard]

/-- C8 (amended): in the valuation run, shares outstanding equal to zero and
an empty quarterly-statement series are fatal DataUnavailable conditions
naming the offending field, and in the WACC run a zero market capitalization
is fatal; zero total debt and total cash are accepted (they default to 0),
the shares-outstanding guard is an equality test with zero, and an empty
price series in the share-price comparison is non-fatal: the current price
is reported unavailable (`none`) while a nonempty history yields its last
close. -/
theorem fetch_guard_spec (d : FetchedData) :
    (d.sharesOutstanding = 0 →
      fetchGuard d = .error (.dataUnavailable "sharesOutstanding")) ∧
    (d.sharesOutstanding ≠ 0 → d.quarterlyRevenue = [] →
      fetchGuard d = .error (.dataUnavailable "quarterlyData")) ∧
    (d.sharesOutstanding ≠ 0 → d.quarterlyRevenue ≠ [] →
      fetchGuard d = .ok (d.sharesOutstanding, d.totalDebt, d.totalCash,
        (d.quarterlyRevenue.drop (d.quarterlyRevenue.length - 4)).sum)) ∧
    (∀ totalDebt : ℚ,
      waccFetchGuard 0 totalDebt = .error (.dataUnavailable "marketCap")) ∧
    currentPriceFetch [] = none ∧
    (∀ priceHistory : List ℚ, priceHistory ≠ [] →
      ∃ p, currentPriceFetch priceHistory = some p) := by
  refine ⟨fun h => by simp [fetchGuard, h],
    fun h1 h2 => by simp [fetchGuard, h1, h2],
    fun h1 h2 => by simp [fetchGuard, h1, h2],
    fun totalDebt => by simp [waccFetchGuard],
    rfl,
    fun priceHistory hne => ?_⟩
  exact ⟨priceHistory.getLast hne, List.getLast?_eq_getLast priceHistory hne⟩

/-- Witness for C8 (amended): zero shares outstanding aborts naming the
field. -/
theorem fetch_guard_spec_witness :
    fetchGuard ⟨0, 1, 1, [5]⟩ = .error (.dataUnavailable "sharesOutstanding") :=
  (fetch_guard_spec ⟨0, 1, 1, [5]⟩).1 rfl

/-- Counterexample to C7 as stated: with the all-zero projected cash-flow
sequence [0] (reachable, since assumption values are unconstrained), growth
0 and discount rates 1/20 < 1/10 both above growth, the firm value is 0 at
both rates, so the higher rate does not give a strictly lower firm value. -/
theorem firm_value_not_strictly_antitone :
    ((0:ℚ) ≤ 0 ∧ (0:ℚ) < 1/20 ∧ (1/20:ℚ) < 1/10) ∧
    ¬ ((valuationScenario [0] 0 (1/10) 0 0 1).firmValue
        < (valuationScenario [0] 0 (1/20) 0 0 1).firmValue) := by
  constructor
  · norm_num
  · norm_num [valuationScenario, pv_fcf, List.enum, List.enumFrom,
      List.getLastD]

/-- C7 (amended): holding the cash-flow sequence fixed, with every projected
FCF nonnegative and the final-year FCF strictly positive, a nonnegative
steady-state growth rate `g` and discount rates `g < r1 < r2`, the firm
value at `r2` is strictly lower than at `r1`. -/
theorem firm_value_strict_antitone (fcf : List ℚ) (g r1 r2 debt cash
    shares : ℚ) (hfcf : ∀ x ∈ fcf, 0 ≤ x) (hlast : 0 < fcf.getLastD 0)
    (hg : 0 ≤ g) (h1 : g < r1) (h2 : r1 < r2) :
    (valuationScenario fcf g r2 debt cash shares).firmValue
      < (valuationScenario fcf g r1 debt cash shares).firmValue := by
  have hne : fcf ≠ [] := by
    intro h
    rw [h] at hlast
    norm_num [List.getLastD] at hlast
  have hr1 : (0:ℚ) < 1 + r1 := by linarith
  have hr2 : (0:ℚ) < 1 + r2 := by linarith
  have hfv : ∀ r, (valuationScenario fcf g r debt cash shares).firmValue
      = pv_fcf fcf r
        + fcf.getLastD 0 * (1 + g) / (r - g) / (1 + r) ^ fcf.length :=
    fun r => rfl
  rw [hfv, hfv]
  have hpv : pv_fcf fcf r2 ≤ pv_fcf fcf r1 := by
    rw [pv_fcf, pv_fcf, show fcf.enum = fcf.enumFrom 0 from rfl,
      pv_fcf_sum, pv_fcf_sum]
    refine Finset.sum_le_sum (fun t ht => ?_)
    have htl : t < fcf.length := Finset.mem_range.mp ht
    have hx : 0 ≤ fcf.getD t 0 := by
      rw [List.getD_eq_getElem fcf 0 htl]
      exact hfcf _ (List.getElem_mem htl)
    have hble : (1 + r1) ^ (0 + t + 1) ≤ (1 + r2) ^ (0 + t + 1) :=
      pow_le_pow_left₀ hr1.le (by linarith) _
    exact div_le_div_of_nonneg_left hx (pow_pos hr1 _) hble
  have htv : fcf.getLastD 0 * (1 + g) / (r2 - g) / (1 + r2) ^ fcf.length
      < fcf.getLastD 0 * (1 + g) / (r1 - g) / (1 + r1) ^ fcf.length := by
    rw [div_div, div_div]
    have hA : 0 < fcf.getLastD 0 * (1 + g) := mul_pos hlast (by linarith)
    have hD1 : 0 < (r1 - g) * (1 + r1) ^ fcf.length :=
      mul_pos (by linarith) (pow_pos hr1 _)
    have hD12 : (r1 - g) * (1 + r1) ^ fcf.length
        < (r2 - g) * (1 + r2) ^ fcf.length := by
      have hpow : (1 + r1) ^ fcf.length ≤ (1 + r2) ^ fcf.length :=
        pow_le_pow_left₀ hr1.le (by linarith) _
      exact mul_lt_mul (by linarith) hpow (pow_pos hr1 _) (by linarith)
    exact div_lt_div_of_pos_left hA hD1 hD12
  linarith [hpv, htv]

/-- Witness for C7 (amended): with FCF [35.2], growth 3% and rates
9% < 10%, the firm value at 10% is strictly below that at 9%. -/
theorem firm_value_strict_antitone_witness :
    (valuationScenario [352/10] (3/100) (1/10) 0 0 10).firmValue
      < (valuationScenario [352/10] (3/100) (9/100) 0 0 10).firmValue :=
  firm_value_strict_antitone [352/10] (3/100) (9/100) (1/10) 0 0 10
    (by norm_num) (by norm_num [List.getLastD]) (by norm_num) (by norm_num)
    (by norm_num)

/-! ## OLS regression lemmas -/

/-- Pulling a common factor out of a mapped sum. -/
theorem sum_map_mul_factor (c : ℚ) (f : ℚ → ℚ) :
    ∀ xs : List ℚ, (xs.map (fun x => c * f x)).sum = c * (xs.map f).sum := by
  intro xs
  induction xs with
  | nil => simp
  | cons x xs ih => simp [ih, mul_add]

/-- The mean of a uniformly scaled series is the scaled mean. -/
theorem seriesMean_map_mul (c : ℚ) (xs : List ℚ) :
    seriesMean (xs.map (fun x => c * x)) = c * seriesMean xs := by
  have h : (xs.map (fun x => c * x)).sum = c * xs.sum := by
    simpa using sum_map_mul_factor c (fun x => x) xs
  simp [seriesMean, h, List.length_map, mul_div_assoc]

/-- Summing centred cross products over a list zipped with its own scaled
image collapses to a single mapped sum. -/
theorem zip_prop_sum (c mx my : ℚ) :
    ∀ xs : List ℚ,
      ((xs.zip (xs.map (fun x => c * x))).map
          (fun p => (p.1 - mx) * (p.2 - my))).sum
        = (xs.map (fun x => (x - mx) * (c * x - my))).sum := by
  intro xs
  induction xs with
  | nil => simp
  | cons x xs ih => simp [ih]

/-- Summing squared residuals over a list zipped with its own scaled image
collapses to a single mapped sum. -/
theorem zip_residual_sum (c a b : ℚ) :
    ∀ xs : List ℚ,
      ((xs.zip (xs.map (fun x => c * x))).map
          (fun p => (p.2 - (a + b * p.1)) ^ 2)).sum
        = (xs.map (fun x => (c * x - (a + b * x)) ^ 2)).sum := by
  intro xs
  induction xs with
  | nil => simp
  | cons x xs ih => simp [ih]

/-- On perfectly proportional data the cross products are the scaled
squares: `sxy xs (c * xs) = c * sxx xs`. -/
theorem sxy_proportional (c : ℚ) (xs : List ℚ) :
    sxy xs (xs.map (fun x => c * x)) = c * sxx xs := by
  rw [sxy, sxx, seriesMean_map_mul, zip_prop_sum]
  have hfun : (fun x : ℚ => (x - seriesMean xs) * (c * x - c * seriesMean xs))
      = fun x => c * ((x - seriesMean xs) ^ 2) := by
    funext x
    ring
  rw [hfun, sum_map_mul_factor]

/-- C9: on aligned excess-return series of length at least 2 where the index
series has nonzero variance and the asset series is exactly
`beta_true * index` (zero noise), the OLS fit recovers the slope
`beta_true` exactly and the coefficient of determination is 1. -/
theorem ols_recovery (xs : List ℚ) (betaTrue : ℚ) (hn : 2 ≤ xs.length)
    (hvar : sxx xs ≠ 0) :
    olsSlope xs (xs.map (fun x => betaTrue * x)) = betaTrue ∧
    olsRSquared xs (xs.map (fun x => betaTrue * x)) = 1 := by
  have hslope : olsSlope xs (xs.map (fun x => betaTrue * x)) = betaTrue := by
    rw [olsSlope, sxy_proportional, mul_div_assoc, div_self hvar, mul_one]
  have hintercept : olsIntercept xs (xs.map (fun x => betaTrue * x)) = 0 := by
    rw [olsIntercept, hslope, seriesMean_map_mul, sub_self]
  have hres : ssRes xs (xs.map (fun x => betaTrue * x)) = 0 := by
    rw [ssRes, hslope, hintercept, zip_residual_sum]
    have hfun : (fun x : ℚ => (betaTrue * x - (0 + betaTrue * x)) ^ 2)
        = fun _ => (0 : ℚ) := by
      funext x
      ring
    simp [hfun]
  refine ⟨hslope, ?_⟩
  rw [olsRSquared, hres, zero_div, sub_zero]

/-- Witness for C9: the index series [1, 2, 3] with asset series 2 * index
recovers slope 2 and R² = 1. -/
theorem ols_recovery_witness :
    olsSlope [1, 2, 3] ([1, 2, 3].map (fun x => (2:ℚ) * x)) = 2 ∧
    olsRSquared [1, 2, 3] ([1, 2, 3].map (fun x => (2:ℚ) * x)) = 1 :=
  ols_recovery [1, 2, 3] 2 (by norm_num)
    (by norm_num [sxx, seriesMean])

end FinApp
